import Mathlib

/-!
Verification of the hierarchical spline inner-optimization core of pyPESTO
(`pypesto/hierarchical/spline_approximation/solver.py` and the hierarchical
calculator), shallowly embedded over exact rationals.  Machine floats are
modelled by `ℚ`; numpy primitives (`argmin`, `argmax`, `linspace`, `ceil`)
are modelled faithfully below.
-/

/-- Modelled from the spec: `MIN_SIM_RANGE`, the minimum-range threshold
imported from the constants module `pypesto.C` (absent from the sources);
the spec calls it "a small absolute constant".  We keep it as an explicit
parameter `MINR` of every definition that uses it, and instantiate it with
this value (`1e-3`) in concrete computations. -/
def MIN_SIM_RANGE : ℚ := 1 / 1000

/-- Model of `np.argmin`: index of the first occurrence of the minimum of a list
(numpy returns the first minimal index on ties); `0` on the empty list. -/
def np_argmin : List ℚ → ℕ
  | [] => 0
  | [_] => 0
  | x :: y :: xs =>
    if (y :: xs).getD (np_argmin (y :: xs)) 0 < x then np_argmin (y :: xs) + 1
    else 0

/-- Model of `np.argmax`: index of the first occurrence of the maximum of a list;
`0` on the empty list. -/
def np_argmax : List ℚ → ℕ
  | [] => 0
  | [_] => 0
  | x :: y :: xs =>
    if x < (y :: xs).getD (np_argmax (y :: xs)) 0 then np_argmax (y :: xs) + 1
    else 0

/-- Model of `np.linspace a b N`: `N` evenly spaced points from `a` to `b`
(inclusive), step `(b - a)/(N - 1)`. -/
def linspace (a b : ℚ) (N : ℕ) : List ℚ :=
  (List.range N).map (fun (i : ℕ) => a + (i : ℚ) * (b - a) / ((N : ℚ) - 1))

theorem np_argmin_lt_length (l : List ℚ) (h : l ≠ []) : np_argmin l < l.length := by
  match l with
  | [] => exact absurd rfl h
  | [x] => simp [np_argmin]
  | x :: y :: xs =>
    have ih := np_argmin_lt_length (y :: xs) (by simp)
    simp only [np_argmin]
    split
    · simpa using Nat.succ_lt_succ ih
    · simp

theorem np_argmax_lt_length (l : List ℚ) (h : l ≠ []) : np_argmax l < l.length := by
  match l with
  | [] => exact absurd rfl h
  | [x] => simp [np_argmax]
  | x :: y :: xs =>
    have ih := np_argmax_lt_length (y :: xs) (by simp)
    simp only [np_argmax]
    split
    · simpa using Nat.succ_lt_succ ih
    · simp

theorem np_argmin_le (l : List ℚ) (y : ℚ) (hy : y ∈ l) :
    l.getD (np_argmin l) 0 ≤ y := by
  match l with
  | [] => simp at hy
  | [x] =>
    simp at hy
    simp [np_argmin, hy]
  | a :: b :: xs =>
    have ih : ∀ z ∈ b :: xs, (b :: xs).getD (np_argmin (b :: xs)) 0 ≤ z :=
      fun z hz => np_argmin_le (b :: xs) z hz
    simp only [np_argmin]
    split
    · next hlt =>
      rw [List.getD_cons_succ]
      rcases List.mem_cons.mp hy with hya | hyb
      · exact hya ▸ le_of_lt hlt
      · exact ih y hyb
    · next hge =>
      rw [List.getD_cons_zero]
      rcases List.mem_cons.mp hy with hya | hyb
      · exact le_of_eq hya.symm
      · exact le_trans (not_lt.mp hge) (ih y hyb)

theorem np_argmax_ge (l : List ℚ) (y : ℚ) (hy : y ∈ l) :
    y ≤ l.getD (np_argmax l) 0 := by
  match l with
  | [] => simp at hy
  | [x] =>
    simp at hy
    simp [np_argmax, hy]
  | a :: b :: xs =>
    have ih : ∀ z ∈ b :: xs, z ≤ (b :: xs).getD (np_argmax (b :: xs)) 0 :=
      fun z hz => np_argmax_ge (b :: xs) z hz
    simp only [np_argmax]
    split
    · next hlt =>
      rw [List.getD_cons_succ]
      rcases List.mem_cons.mp hy with hya | hyb
      · exact hya ▸ le_of_lt hlt
      · exact ih y hyb
    · next hge =>
      rw [List.getD_cons_zero]
      rcases List.mem_cons.mp hy with hya | hyb
      · exact le_of_eq hya
      · exact le_trans (ih y hyb) (not_lt.mp hge)

theorem linspace_length (a b : ℚ) (N : ℕ) : (linspace a b N).length = N := by
  simp [linspace]

theorem linspace_getD (a b : ℚ) (N i : ℕ) (hi : i < N) :
    (linspace a b N).getD i 0 = a + (i : ℚ) * (b - a) / ((N : ℚ) - 1) := by
  rw [linspace, List.getD_eq_getElem?_getD, List.getElem?_map, List.getElem?_range hi]
  rfl

theorem linspace_getD_zero (a b : ℚ) (N : ℕ) (hN : 0 < N) :
    (linspace a b N).getD 0 0 = a := by
  rw [linspace_getD a b N 0 hN]
  push_cast
  ring

/-- Embedding of `SplineInnerSolver._rescale_spline_bases` (solver.py, lines 379-451),
embedded over `ℚ` with the threshold `MINR` (= `MIN_SIM_RANGE`) explicit.
The caller always passes `K = len(sim_all)` (the `n_datapoints` of the group
equals the length of its extracted simulation vector), so the interval
array `n` — initialized to ones of length `K` and then overwritten at
every index `i < len(sim_all)` — is represented directly as a list of
length `sim_all.length`.  The clamp `if n[i] > N: n[i] = N` is written as
`min N _`.  Returns `(delta_c, (c, n))`. -/
def rescale_spline_bases (MINR : ℚ) (sim_all : List ℚ) (N : ℕ) :
    ℚ × List ℚ × List ℤ :=
  let min_idx := np_argmin sim_all
  let max_idx := np_argmax sim_all
  let min_all := sim_all.getD min_idx 0
  let max_all := sim_all.getD max_idx 0
  if max_all - min_all < MINR then
    let average_value := (max_all + min_all) / 2
    let delta_c := MINR / ((N : ℚ) - 1)
    let c :=
      if average_value < MINR / 2 then linspace 0 MINR N
      else linspace (average_value - MINR / 2) (average_value + MINR / 2) N
    let n := sim_all.map (fun y => min (N : ℤ) (⌈(y - c.getD 0 0) / delta_c⌉ + 1))
    (delta_c, c, n)
  else
    let delta_c := (max_all - min_all) / ((N : ℚ) - 1)
    let c := linspace min_all max_all N
    let n := (List.range sim_all.length).map (fun i =>
      if i = max_idx then min (N : ℤ) (N : ℤ)
      else if i = min_idx then min (N : ℤ) 1
      else min (N : ℤ) (⌈(sim_all.getD i 0 - c.getD 0 0) / delta_c⌉ + 1))
    (delta_c, c, n)

/-- Embedding of `calculate_spline_bases_gradient` (solver.py, lines 775-790):
gradient of the rescaled spline bases with respect to one outer parameter,
given the simulation sensitivities `sy_all`. -/
def calculate_spline_bases_gradient (MINR : ℚ) (sim_all sy_all : List ℚ)
    (N : ℕ) : ℚ × List ℚ :=
  let min_idx := np_argmin sim_all
  let max_idx := np_argmax sim_all
  if sim_all.getD max_idx 0 - sim_all.getD min_idx 0 < MINR then
    (0, List.replicate N ((sy_all.getD max_idx 0 - sy_all.getD min_idx 0) / 2))
  else
    ((sy_all.getD max_idx 0 - sy_all.getD min_idx 0) / ((N : ℚ) - 1),
      linspace (sy_all.getD min_idx 0) (sy_all.getD max_idx 0) N)

/-- The directional derivative of the `(delta_c, c)` construction of
`rescale_spline_bases`, stated from the words of the spec ("the directional
derivative of the same construction … using the same
degenerate/non-degenerate branch", with the zero-anchored window having
derivative zero): within each branch the construction is an affine
map of `(min_all, max_all)`, whose directional derivative along
`(sy_all[min_idx], sy_all[max_idx])` is written out per branch.  This is
the spec-side reference against which `calculate_spline_bases_gradient`
is compared. -/
def rescale_bases_derivative (MINR : ℚ) (sim_all sy_all : List ℚ)
    (N : ℕ) : ℚ × List ℚ :=
  let min_idx := np_argmin sim_all
  let max_idx := np_argmax sim_all
  let min_all := sim_all.getD min_idx 0
  let max_all := sim_all.getD max_idx 0
  let smin := sy_all.getD min_idx 0
  let smax := sy_all.getD max_idx 0
  if max_all - min_all < MINR then
    if (max_all + min_all) / 2 < MINR / 2 then
      -- window anchored at 0: `c = linspace 0 MINR N` is constant
      (0, List.replicate N 0)
    else
      -- window centered on the midpoint: every breakpoint moves with the
      -- midpoint `(max_all + min_all)/2`
      (0, List.replicate N ((smax + smin) / 2))
  else
    ((smax - smin) / ((N : ℚ) - 1), linspace smin smax N)

/-- Embedding of `calculate_objective_function` (solver.py, lines 526-552): objective of
the reformulated inner spline problem.  The Python loop runs over
`zip(sim_all, measurements, sigma, n)` (truncating to the shortest list);
numpy slices `s[:i]` are `List.take`, `s[i]` is `getD` (call sites keep
`i` in range; Python negative indexing is not modelled — the interval
values produced by `rescale_spline_bases` at the call sites are the
integers handled here via `Int.toNat`). -/
def objective_loop (s : List ℚ) (N : ℕ) (delta_c : ℚ) (c : List ℚ) :
    List ℚ → List ℚ → List ℚ → List ℤ → ℚ
  | y_k :: ys, z_k :: zs, sigma_k :: sgs, n_k :: ns =>
    let i : ℤ := n_k - 1
    let sum_s := (s.take i.toNat).sum
    (if i = 0 then 1 / sigma_k ^ 2 * (z_k - s.getD i.toNat 0) ^ 2
     else if i = (N : ℤ) then 1 / sigma_k ^ 2 * (z_k - sum_s) ^ 2
     else 1 / sigma_k ^ 2 *
       (z_k - (y_k - c.getD (i.toNat - 1) 0) * s.getD i.toNat 0 / delta_c - sum_s) ^ 2)
    + objective_loop s N delta_c c ys zs sgs ns
  | _, _, _, _ => 0

/-- Embedding of `calculate_objective_function` proper: the accumulated sum halved. -/
def calculate_objective_function (s sim_all measurements sigma : List ℚ)
    (N : ℕ) (delta_c : ℚ) (c : List ℚ) (n : List ℤ) : ℚ :=
  objective_loop s N delta_c c sim_all measurements sigma n / 2

/-- Predicted value of the spec for one observation (§4.3): with 0-based
interval `i = n_k - 1`, `s[0]` if `i = 0`, `sum(s[0..i-1])` if `i = N`,
otherwise the linear interpolation
`(y_k - c[i-1]) * s[i] / delta_c + sum(s[0..i-1])`. -/
def spline_predicted (s : List ℚ) (N : ℕ) (delta_c : ℚ) (c : List ℚ)
    (y_k : ℚ) (n_k : ℤ) : ℚ :=
  let i : ℤ := n_k - 1
  if i = 0 then s.getD 0 0
  else if i = (N : ℤ) then (s.take i.toNat).sum
  else (y_k - c.getD (i.toNat - 1) 0) * s.getD i.toNat 0 / delta_c +
    (s.take i.toNat).sum

/-- Embedding of `get_spline_mapped_simulations` (solver.py, lines 555-578): map the
simulations through the reconstructed cumulative spline
`xi[i] = sum(s[0..i])`. -/
def get_spline_mapped_simulations (s sim_all : List ℚ) (N : ℕ)
    (delta_c : ℚ) (c : List ℚ) (n : List ℤ) : List ℚ :=
  let xi := (List.range s.length).map (fun i => (s.take (i + 1)).sum)
  (sim_all.zip n).map (fun p =>
    let y_k := p.1
    let interval_index : ℤ := p.2 - 1
    if interval_index = 0 ∨ interval_index = (N : ℤ) then
      xi.getD interval_index.toNat 0
    else
      (y_k - c.getD (interval_index.toNat - 1) 0) *
          (xi.getD interval_index.toNat 0 - xi.getD (interval_index.toNat - 1) 0) /
          delta_c +
        xi.getD (interval_index.toNat - 1) 0)

/-- An IEEE-float sentinel value as produced by the solver and calculator
layer: either a finite number (modelled exactly in `ℚ`), `np.inf`, or
`np.nan`. -/
inductive NumVal where
  | fin (q : ℚ)
  | inf
  | nan
  deriving DecidableEq

/-- One entry of the list returned by `SplineInnerSolver.solve`: the result
dictionary of the scipy minimizer used in `_optimize_spline`
(fields `x`, `fun`, `success`; only the fields the embedded code reads). -/
structure MinimizeResult where
  x : List ℚ
  fval : ℚ
  success : Bool
  deriving DecidableEq

/-- Embedding of `SplineInnerSolver.calculate_obj_function` (solver.py, lines 88-113):
`np.inf` (with a warning) when any per-group result has `success == False`,
else the sum of the per-group `fun` values. -/
def calculate_obj_function (x_inner_opt : List MinimizeResult) : NumVal :=
  if x_inner_opt.any (fun r => r.success = false) then NumVal.inf
  else NumVal.fin ((x_inner_opt.map (fun r => r.fval)).sum)

/-- Embedding of `SplineInnerSolver._get_minimal_difference` (solver.py, lines 453-465). -/
def get_minimal_difference (min_meas max_meas : ℚ) (N : ℕ)
    (use_minimal_difference : Bool) : ℚ :=
  if use_minimal_difference then (max_meas - min_meas) / (2 * N) else 0

/-- The lower-bound vector built by
`SplineInnerSolver._get_inner_optimization_options` (solver.py, lines
493-521): `constraint_min_diff = np.full(N, min_diff)` followed by
`constraint_min_diff[0] = 0`, passed to scipy as `Bounds(lb=...)`. -/
def inner_optimization_lower_bounds (N : ℕ) (min_diff : ℚ) : List ℚ :=
  (List.replicate N min_diff).set 0 0

/-- Embedding of `save_inner_parameters_to_inner_problem` (solver.py, lines 805-827):
overwrite the `value` field of every inner parameter of the group, in
index order, with the cumulative sum `xi[idx] = sum(s[0..idx])`.  The
parameter list is represented by its list of current values; `none`
models the `IndexError` raised when the group has more parameters than
`s` has entries (the loop reads `xi[idx]` for every parameter index). -/
def save_inner_parameters_to_inner_problem (param_values s : List ℚ) :
    Option (List ℚ) :=
  if param_values.length ≤ s.length then
    some ((List.range param_values.length).map (fun idx => (s.take (idx + 1)).sum))
  else none

/-- The per-group loop of `SplineInnerSolver.solve` (solver.py, lines
44-86), with the external scipy minimizer abstracted as the per-group
result list `opt_results` (one entry per group, in group order): for each
group the result is appended to the returned list and
`save_inner_parameters_to_inner_problem` is called on the parameter
values of the group with `s` the `x` entry of the result —
unconditionally, with no check of the `success` entry.  Returns the new
per-group parameter values;
`none` when a group has no matching result or a write-back fails. -/
def solve_write_back (group_param_values : List (List ℚ))
    (opt_results : List MinimizeResult) : Option (List (List ℚ)) :=
  match group_param_values, opt_results with
  | [], _ => some []
  | g :: gs, r :: rs => do
    let v ← save_inner_parameters_to_inner_problem g r.x
    let vs ← solve_write_back gs rs
    some (v :: vs)
  | _ :: _, [] => none

/-- A dynamically-typed Python value, as far as the options dictionary of
`SplineInnerSolver` is concerned. -/
inductive PyVal where
  | pybool (b : Bool)
  | pyint (n : ℤ)
  | pystr (s : String)
  deriving DecidableEq

/-- Python `==` on `PyVal`: `bool` is a subclass of `int`, so
`True == 1` and `False == 0`; strings compare unequal to booleans. -/
def pyEq : PyVal → PyVal → Bool
  | PyVal.pybool a, PyVal.pybool b => a == b
  | PyVal.pybool a, PyVal.pyint n => (if a then 1 else 0) == n
  | PyVal.pyint n, PyVal.pybool a => n == (if a then 1 else 0)
  | PyVal.pyint m, PyVal.pyint n => m == n
  | PyVal.pystr s, PyVal.pystr t => s == t
  | _, _ => false

/-- Embedding of `SplineInnerSolver.validate_options` (solver.py, lines 39-42):
`if self.options[USE_MINIMAL_DIFFERENCE] not in [True, False]: raise
ValueError(...)`.  The `in` of Python tests `==` against each list element. -/
def validate_options (use_minimal_difference_value : PyVal) :
    Except String Unit :=
  if pyEq use_minimal_difference_value (PyVal.pybool true) ∨
      pyEq use_minimal_difference_value (PyVal.pybool false) then
    Except.ok ()
  else Except.error "Minimal difference must be a boolean value."

/-- Embedding of `SplineInnerSolver.__init__` (solver.py, lines 28-37), restricted to
the `use_minimal_difference` entry: the given options dictionary (possibly
absent) is merged over the default dictionary mapping
`use_minimal_difference` to `True` and
then validated.  `options = none` models both a missing dictionary and a
dictionary without the key (the merge keeps the default in either case). -/
def splineInnerSolver_init (options : Option PyVal) : Except String PyVal :=
  let merged := options.getD (PyVal.pybool true)
  do
    let _ ← validate_options merged
    Except.ok merged

/-- Call mode of the calculator (`MODE_FUN` / `MODE_RES`). -/
inductive Mode where
  | mode_fun
  | mode_res
  deriving DecidableEq

/-- The fields of one AMICI `ReturnData` that
`OptimalScalingAmiciCalculator.__call__` inspects before the inner solve:
the per-condition status (`success = (status == amici.AMICI_SUCCESS)`) and
whether `ssigmay` is present and has any nonzero entry (likewise for
`ssigmaz`, folded into the same flag). -/
structure RDataM where
  success : Bool
  ssigmay_nonzero : Bool
  deriving DecidableEq

/-- The FVAL/GRAD part of the filtered return value of the calculator. -/
structure CalcOutput where
  fval : NumVal
  grad : Option (List NumVal)
  deriving DecidableEq

/-- Embedding of `OptimalScalingAmiciCalculator.__call__` (optimal_scaling_calculator.py,
lines 50-187), embedded from the point where the simulation results
`rdatas` are available (the external simulator and parameter mapping are
collaborators; their outputs are inputs here).  In order, as in the code:
the residual-mode least-squares check (which raises `RuntimeError`), then
the failed-simulation short-circuit (`FVAL = inf`, and `GRAD` a NaN vector
of length `dim = len(x_ids)` when order 1 was requested), then the inner
solve, whose value and gradient are the inputs `success_fval` /
`success_grad` (produced by the inner solver, outside this claim).
`filter_return_dict` is modelled from the spec ("Return filtered result
containing only requested orders", §4.6): `GRAD` is present in the output
iff `1 ∈ sensi_orders`. -/
def calculator_call (mode : Mode) (sensi_orders : List ℕ) (dim : ℕ)
    (known_ls_safe add_sigma_residuals : Bool) (rdatas : List RDataM)
    (success_fval : NumVal) (success_grad : List NumVal) :
    Except String CalcOutput :=
  if ¬known_ls_safe ∧ mode = Mode.mode_res ∧ 1 ∈ sensi_orders ∧
      ¬add_sigma_residuals ∧ rdatas.any (fun r => r.ssigmay_nonzero) then
    Except.error "Cannot use least squares solver with parameter dependent sigma"
  else if rdatas.any (fun r => r.success = false) then
    Except.ok
      { fval := NumVal.inf
        grad :=
          if 1 ∈ sensi_orders then some (List.replicate dim NumVal.nan)
          else none }
  else
    Except.ok
      { fval := success_fval
        grad := if 1 ∈ sensi_orders then some success_grad else none }

/-- Helper: `getD` on `List.replicate` inside the range. -/
theorem getD_replicate_of_lt (n i : ℕ) (a : ℚ) (hi : i < n) :
    (List.replicate n a).getD i 0 = a := by
  rw [List.getD_eq_getElem?_getD, List.getElem?_replicate]
  simp [hi]

/-- C9: for `s = [2,4,6,8,15]`, `sim_all = [1, 1.5, 2, 2.5, 3, 3.5, 4, 4.2, 5]`,
`N = 5`, `delta_c = 1`, `c = [1,2,3,4,5]` and interval assignment
`n = [1,2,3,3,4,4,5,5,5]`, `get_spline_mapped_simulations` returns exactly
`[2, 4, 6, 9, 12, 16, 20, 23, 35]`. -/
theorem spline_mapping_round_trip :
    get_spline_mapped_simulations [2, 4, 6, 8, 15]
      [1, 3/2, 2, 5/2, 3, 7/2, 4, 21/5, 5] 5 1 [1, 2, 3, 4, 5]
      [1, 2, 3, 3, 4, 4, 5, 5, 5] =
      [2, 4, 6, 9, 12, 16, 20, 23, 35] := by
  simp only [get_spline_mapped_simulations, List.zip, List.zipWith, List.map,
    List.range_succ, List.range_zero]
  norm_num [List.getD, List.take, List.getElem?_cons]
  norm_num [show (Int.toNat 2) = 2 from rfl, show (Int.toNat 3) = 3 from rfl,
    show (Int.toNat 4) = 4 from rfl, List.getElem?_cons]

/-- C6: `calculate_obj_function` returns the sum of the per-group `fun`
values when every inner result has `success = True`, and `np.inf` when at
least one has `success = False`; being a total function, it raises no
exception in either case. -/
theorem obj_function_sum_or_inf (results : List MinimizeResult) :
    ((∀ r ∈ results, r.success = true) →
      calculate_obj_function results =
        NumVal.fin ((results.map (fun r => r.fval)).sum)) ∧
    ((∃ r ∈ results, r.success = false) →
      calculate_obj_function results = NumVal.inf) := by
  constructor
  · intro hall
    rw [calculate_obj_function, if_neg]
    simp only [List.any_eq_true, not_exists, not_and]
    intro r hr
    simp [hall r hr]
  · intro ⟨r, hr, hfail⟩
    rw [calculate_obj_function, if_pos]
    rw [List.any_eq_true]
    exact ⟨r, hr, by simp [hfail]⟩

theorem obj_function_sum_or_inf_witness :
    calculate_obj_function
        [{ x := [], fval := 2, success := true },
          { x := [], fval := 3, success := true }] = NumVal.fin 5 ∧
      calculate_obj_function
        [{ x := [], fval := 2, success := true },
          { x := [], fval := 3, success := false }] = NumVal.inf := by
  constructor
  · have h := (obj_function_sum_or_inf
      [{ x := [], fval := 2, success := true },
        { x := [], fval := 3, success := true }]).1 (by
      intro r hr
      simp at hr
      rcases hr with h1 | h1 <;> simp [h1])
    rw [h]
    norm_num
  · exact (obj_function_sum_or_inf _).2
      ⟨{ x := [], fval := 3, success := false }, by simp, rfl⟩

/-- C7: the bound constraints the inner solver passes to scipy are
`s[0] ≥ 0` and `s[i] ≥ min_diff` for `0 < i < N`, with
`min_diff = (max_meas - min_meas)/(2N)` when `use_minimal_difference` is
enabled and `0` otherwise. -/
theorem inner_solver_bound_constraints (min_meas max_meas : ℚ) (N : ℕ)
    (use_min_diff : Bool) (hN : 1 ≤ N) :
    (inner_optimization_lower_bounds N
        (get_minimal_difference min_meas max_meas N use_min_diff)).getD 0 0 = 0 ∧
    ∀ i, 0 < i → i < N →
      (inner_optimization_lower_bounds N
          (get_minimal_difference min_meas max_meas N use_min_diff)).getD i 0 =
        if use_min_diff then (max_meas - min_meas) / (2 * N) else 0 := by
  constructor
  · rw [inner_optimization_lower_bounds, List.getD_eq_getElem?_getD,
      List.getElem?_set_self]
    · simp
    · simpa using hN
  · intro i hi0 hiN
    rw [inner_optimization_lower_bounds, List.getD_eq_getElem?_getD,
      List.getElem?_set_ne (by omega), List.getElem?_replicate]
    simp only [hiN, if_pos]
    rfl

theorem inner_solver_bound_constraints_witness :
    (inner_optimization_lower_bounds 3
        (get_minimal_difference 1 4 3 true)).getD 0 0 = 0 ∧
    (inner_optimization_lower_bounds 3
        (get_minimal_difference 1 4 3 true)).getD 2 0 =
      if true then ((4:ℚ) - 1) / (2 * 3) else 0 := by
  have h := inner_solver_bound_constraints 1 4 3 true (by norm_num)
  exact ⟨h.1, h.2 2 (by norm_num) (by norm_num)⟩

/-- C8 (counterexample): constructing a `SplineInnerSolver` whose
`use_minimal_difference` entry is the Python integer `1` — a non-boolean
value — does NOT raise: the Python membership test `1 in [True, False]` is true
because `1 == True`, so `validate_options` accepts it and construction
succeeds. -/
theorem options_validation_accepts_int_one :
    splineInnerSolver_init (some (PyVal.pyint 1)) =
      Except.ok (PyVal.pyint 1) := by
  rfl

/-- C8 (amended): construction fails with `ValueError` exactly when the
`use_minimal_difference` entry compares unequal, under Python `==`, to
both `True` and `False` (so genuine booleans succeed, as does construction
with no options, which defaults the entry to `True`; but numeric values
equal to `0` or `1`, such as the int `1`, are accepted as well). -/
theorem options_validation (options : Option PyVal) :
    ((options = none ∨ ∃ b, options = some (PyVal.pybool b)) →
      splineInnerSolver_init options =
        Except.ok (options.getD (PyVal.pybool true))) ∧
    (∀ v, options = some v →
      pyEq v (PyVal.pybool true) = false →
      pyEq v (PyVal.pybool false) = false →
      splineInnerSolver_init options =
        Except.error "Minimal difference must be a boolean value.") := by
  constructor
  · intro h
    rcases h with h | ⟨b, h⟩
    · subst h; rfl
    · subst h
      cases b <;> rfl
  · intro v hv htrue hfalse
    subst hv
    simp only [splineInnerSolver_init, validate_options, Option.getD_some,
      htrue, hfalse]
    rfl

theorem options_validation_witness :
    splineInnerSolver_init none = Except.ok (PyVal.pybool true) ∧
      splineInnerSolver_init (some (PyVal.pystr "yes")) =
        Except.error "Minimal difference must be a boolean value." :=
  ⟨(options_validation none).1 (Or.inl rfl),
    (options_validation (some (PyVal.pystr "yes"))).2 (PyVal.pystr "yes")
      rfl rfl rfl⟩

/-- C2 (counterexample): a call in residual mode with sensitivity order 1
requested, the least-squares safety check not yet passed, sigma residuals
disabled, and a condition whose simulation FAILED but whose `ssigmay` has
nonzero entries, raises `RuntimeError` (the residual-mode sigma check runs
before the failed-simulation short-circuit), so "never raise" is false as
stated. -/
theorem calculator_failure_can_raise :
    calculator_call Mode.mode_res [0, 1] 3 false false
        [{ success := false, ssigmay_nonzero := true }] (NumVal.fin 0) [] =
      Except.error
        "Cannot use least squares solver with parameter dependent sigma" := by
  rfl

/-- C2 (amended): provided the residual-mode least-squares guard does not
fire (it raises `RuntimeError` before the status check when
`mode == MODE_RES`, order 1 is requested, safety is not yet established,
sigma residuals are disabled and some condition has nonzero `ssigmay`), a
call in which the simulation of any condition reports a non-success status
returns `FVAL = inf` and, when sensitivity order 1 was requested, a
NaN-filled gradient of length `dim = len(x_ids)`, without raising. -/
theorem calculator_failure_sentinel (mode : Mode) (sensi_orders : List ℕ)
    (dim : ℕ) (known_ls_safe add_sigma_residuals : Bool)
    (rdatas : List RDataM) (success_fval : NumVal)
    (success_grad : List NumVal)
    (hguard : ¬(¬known_ls_safe ∧ mode = Mode.mode_res ∧ 1 ∈ sensi_orders ∧
      ¬add_sigma_residuals ∧
      rdatas.any (fun r => r.ssigmay_nonzero) = true))
    (hfail : ∃ r ∈ rdatas, r.success = false) :
    calculator_call mode sensi_orders dim known_ls_safe add_sigma_residuals
        rdatas success_fval success_grad =
      Except.ok
        { fval := NumVal.inf
          grad :=
            if 1 ∈ sensi_orders then some (List.replicate dim NumVal.nan)
            else none } := by
  rw [calculator_call, if_neg hguard, if_pos]
  rw [List.any_eq_true]
  obtain ⟨r, hr, hfr⟩ := hfail
  exact ⟨r, hr, by simp [hfr]⟩

theorem calculator_failure_sentinel_witness :
    calculator_call Mode.mode_fun [0, 1] 2 false false
        [{ success := false, ssigmay_nonzero := true }] (NumVal.fin 7) [] =
      Except.ok
        { fval := NumVal.inf
          grad := some (List.replicate 2 NumVal.nan) } := by
  have h := calculator_failure_sentinel Mode.mode_fun [0, 1] 2 false false
    [{ success := false, ssigmay_nonzero := true }] (NumVal.fin 7) []
    (by simp) ⟨_, List.mem_singleton.mpr rfl, rfl⟩
  rw [h]
  simp

/-- C10: `SplineInnerSolver.solve` writes the cumulative sums
`xi[i] = sum(s[0..i])` of the minimizer result of each group back into
the inner-parameter values of that group unconditionally — the
write-back does not look at the `success` flag of the result, so a
failed inner solve still
replaces the previous warm-start values. -/
theorem solve_writes_back_unconditionally (groups : List (List ℚ))
    (results : List MinimizeResult)
    (hlen : groups.length ≤ results.length)
    (hfit : ∀ p ∈ groups.zip results, p.1.length ≤ p.2.x.length) :
    solve_write_back groups results =
      some (List.zipWith
        (fun g r => (List.range g.length).map (fun i => (r.x.take (i + 1)).sum))
        groups results) := by
  match groups, results with
  | [], _ => rfl
  | g :: gs, r :: rs =>
    have hhead : g.length ≤ r.x.length := hfit (g, r) (by simp)
    have htail := solve_writes_back_unconditionally gs rs
      (by simpa using hlen)
      (fun p hp => hfit p (List.mem_cons_of_mem _ hp))
    simp only [solve_write_back, save_inner_parameters_to_inner_problem,
      if_pos hhead, Option.bind_eq_bind, Option.some_bind, htail,
      List.zipWith_cons_cons]
  | _ :: _, [] => simp at hlen

theorem solve_writes_back_unconditionally_witness :
    solve_write_back [[10, 20]]
        [{ x := [1, 2], fval := 5, success := false }] = some [[1, 3]] := by
  have h := solve_writes_back_unconditionally [[10, 20]]
    [{ x := [1, 2], fval := 5, success := false }]
    (by norm_num) (by
      intro p hp
      simp at hp
      subst hp
      norm_num)
  rw [h]
  norm_num [List.range_succ]

/-- Helper for C3: the loop of `calculate_objective_function` computes, for
equal-length argument lists, the sum over observations of
`(z_k - predicted_k)^2 / sigma_k^2` with the predicted value of the spec. -/
theorem objective_loop_eq (s : List ℚ) (N : ℕ) (delta_c : ℚ) (c : List ℚ)
    (ys : List ℚ) :
    ∀ (zs sgs : List ℚ) (ns : List ℤ),
      zs.length = ys.length → sgs.length = ys.length → ns.length = ys.length →
      objective_loop s N delta_c c ys zs sgs ns =
        ((List.range ys.length).map (fun k =>
          (zs.getD k 0 -
              spline_predicted s N delta_c c (ys.getD k 0) (ns.getD k 0)) ^ 2 /
            (sgs.getD k 0) ^ 2)).sum := by
  induction ys with
  | nil =>
    intro zs sgs ns hz hsg hn
    cases zs <;> cases sgs <;> cases ns <;> rfl
  | cons y ys ih =>
    intro zs sgs ns hz hsg hn
    cases zs with
    | nil => simp at hz
    | cons z zs =>
      cases sgs with
      | nil => simp at hsg
      | cons sg sgs =>
        cases ns with
        | nil => simp at hn
        | cons nk ns =>
          simp only [objective_loop]
          rw [ih zs sgs ns (by simpa using hz) (by simpa using hsg)
            (by simpa using hn)]
          rw [List.length_cons, List.range_succ_eq_map, List.map_cons,
            List.map_map, List.sum_cons]
          simp only [Function.comp_def, List.getD_cons_succ, List.getD_cons_zero]
          congr 1
          simp only [spline_predicted]
          split_ifs with h0 hN
          · rw [h0]
            simp only [Int.toNat_zero]
            ring
          · ring
          · ring

/-- C3: for matched-length group data with every interval value
`n_k ∈ [1, N+1]` and nonzero noise, `calculate_objective_function` returns
one half of the sum over observations of `residual_k^2 / sigma_k^2`, the
residual being `z_k` minus the predicted value of the spec (`s[0]` on the first
interval, the cumulative sum on the last, linear interpolation in
between). -/
theorem calculate_objective_function_spec (s sim_all measurements sigma : List ℚ)
    (N : ℕ) (delta_c : ℚ) (c : List ℚ) (n : List ℤ)
    (hz : measurements.length = sim_all.length)
    (hsg : sigma.length = sim_all.length)
    (hn : n.length = sim_all.length)
    (_hnk : ∀ v ∈ n, 1 ≤ v ∧ v ≤ (N : ℤ) + 1)
    (_hsigma : ∀ x ∈ sigma, x ≠ 0) :
    calculate_objective_function s sim_all measurements sigma N delta_c c n =
      ((List.range sim_all.length).map (fun k =>
        (measurements.getD k 0 -
            spline_predicted s N delta_c c (sim_all.getD k 0)
              (n.getD k 0)) ^ 2 /
          (sigma.getD k 0) ^ 2)).sum / 2 := by
  rw [calculate_objective_function,
    objective_loop_eq s N delta_c c sim_all measurements sigma n hz hsg hn]

theorem calculate_objective_function_spec_witness :
    calculate_objective_function [1, 2] [5] [3] [2] 2 1 [0, 1] [2] = 8 := by
  have h := calculate_objective_function_spec [1, 2] [5] [3] [2] 2 1 [0, 1] [2]
    rfl rfl rfl
    (by intro v hv; simp at hv; subst hv; norm_num)
    (by intro x hx; simp at hx; subst hx; norm_num)
  rw [h]
  norm_num [spline_predicted, List.range_succ, List.getD_cons_zero,
    show (Int.toNat 2 - 1) = 1 from rfl, List.getElem?_cons]

/-- Branch lemma: `rescale_spline_bases` in the non-degenerate branch. -/
theorem rescale_nondeg (MINR : ℚ) (sim_all : List ℚ) (N : ℕ)
    (h : ¬(sim_all.getD (np_argmax sim_all) 0 -
      sim_all.getD (np_argmin sim_all) 0 < MINR)) :
    rescale_spline_bases MINR sim_all N =
      ((sim_all.getD (np_argmax sim_all) 0 -
          sim_all.getD (np_argmin sim_all) 0) / ((N : ℚ) - 1),
        linspace (sim_all.getD (np_argmin sim_all) 0)
          (sim_all.getD (np_argmax sim_all) 0) N,
        (List.range sim_all.length).map (fun i =>
          if i = np_argmax sim_all then min (N : ℤ) (N : ℤ)
          else if i = np_argmin sim_all then min (N : ℤ) 1
          else min (N : ℤ) (⌈(sim_all.getD i 0 -
            (linspace (sim_all.getD (np_argmin sim_all) 0)
              (sim_all.getD (np_argmax sim_all) 0) N).getD 0 0) /
            ((sim_all.getD (np_argmax sim_all) 0 -
              sim_all.getD (np_argmin sim_all) 0) / ((N : ℚ) - 1))⌉ + 1))) := by
  simp only [rescale_spline_bases]
  rw [if_neg h]

/-- Branch lemma: `rescale_spline_bases` in the degenerate branch with the
synthetic window anchored at 0; `delta_c` and `c` do not depend on
`sim_all` at all in this branch. -/
theorem rescale_deg_anchored (MINR : ℚ) (sim_all : List ℚ) (N : ℕ)
    (hdeg : sim_all.getD (np_argmax sim_all) 0 -
      sim_all.getD (np_argmin sim_all) 0 < MINR)
    (hanch : (sim_all.getD (np_argmax sim_all) 0 +
      sim_all.getD (np_argmin sim_all) 0) / 2 < MINR / 2) :
    rescale_spline_bases MINR sim_all N =
      (MINR / ((N : ℚ) - 1), linspace 0 MINR N,
        sim_all.map (fun y => min (N : ℤ)
          (⌈(y - (linspace 0 MINR N).getD 0 0) / (MINR / ((N : ℚ) - 1))⌉ + 1))) := by
  simp only [rescale_spline_bases]
  rw [if_pos hdeg, if_pos hanch]

/-- Branch lemma: `rescale_spline_bases` in the degenerate branch with the
synthetic window centered on the midpoint of the simulations. -/
theorem rescale_deg_centered (MINR : ℚ) (sim_all : List ℚ) (N : ℕ)
    (hdeg : sim_all.getD (np_argmax sim_all) 0 -
      sim_all.getD (np_argmin sim_all) 0 < MINR)
    (hcent : ¬((sim_all.getD (np_argmax sim_all) 0 +
      sim_all.getD (np_argmin sim_all) 0) / 2 < MINR / 2)) :
    rescale_spline_bases MINR sim_all N =
      (MINR / ((N : ℚ) - 1),
        linspace ((sim_all.getD (np_argmax sim_all) 0 +
            sim_all.getD (np_argmin sim_all) 0) / 2 - MINR / 2)
          ((sim_all.getD (np_argmax sim_all) 0 +
            sim_all.getD (np_argmin sim_all) 0) / 2 + MINR / 2) N,
        sim_all.map (fun y => min (N : ℤ)
          (⌈(y - (linspace ((sim_all.getD (np_argmax sim_all) 0 +
              sim_all.getD (np_argmin sim_all) 0) / 2 - MINR / 2)
            ((sim_all.getD (np_argmax sim_all) 0 +
              sim_all.getD (np_argmin sim_all) 0) / 2 + MINR / 2) N).getD 0 0) /
            (MINR / ((N : ℚ) - 1))⌉ + 1))) := by
  simp only [rescale_spline_bases]
  rw [if_pos hdeg, if_neg hcent]

/-- C4 (counterexample): at `sim_all = [0, 1e-4]`, `sy_all = [0, 1]`,
`N = 2`, the range is degenerate and the midpoint is below `MINR/2`, so the
value-level construction anchors the window at 0 and its `(delta_c, c)` is
constant (derivative zero); yet `calculate_spline_bases_gradient` returns
`c_dot = [1/2, 1/2] ≠ [0, 0]`, so it is not the directional derivative of
the construction. -/
theorem spline_bases_gradient_not_derivative :
    calculate_spline_bases_gradient (1/1000) [0, 1/10000] [0, 1] 2 ≠
      rescale_bases_derivative (1/1000) [0, 1/10000] [0, 1] 2 := by
  simp only [calculate_spline_bases_gradient, rescale_bases_derivative,
    np_argmin, np_argmax, List.getD, List.getElem?_cons]
  norm_num

/-- C4 (amended): in the non-degenerate branch
`calculate_spline_bases_gradient` equals the directional derivative of the
`rescale_spline_bases` construction (derivative of the linspace endpoint
map); in the degenerate branch its `delta_c_dot = 0` matches the
derivative, but its `c_dot` is uniformly `(sy[argmax] - sy[argmin])/2`,
which is not the derivative of the synthetic-window construction (that
derivative is `0` when the window is anchored at 0 and
`(sy[argmax] + sy[argmin])/2` when it is centered on the midpoint). -/
theorem spline_bases_gradient_vs_derivative (MINR : ℚ)
    (sim_all sy_all : List ℚ) (N : ℕ) :
    (MINR ≤ sim_all.getD (np_argmax sim_all) 0 -
        sim_all.getD (np_argmin sim_all) 0 →
      calculate_spline_bases_gradient MINR sim_all sy_all N =
        rescale_bases_derivative MINR sim_all sy_all N) ∧
    (sim_all.getD (np_argmax sim_all) 0 -
        sim_all.getD (np_argmin sim_all) 0 < MINR →
      calculate_spline_bases_gradient MINR sim_all sy_all N =
        (0, List.replicate N ((sy_all.getD (np_argmax sim_all) 0 -
          sy_all.getD (np_argmin sim_all) 0) / 2))) := by
  constructor
  · intro h
    simp only [calculate_spline_bases_gradient, rescale_bases_derivative]
    rw [if_neg (not_lt.mpr h), if_neg (not_lt.mpr h)]
  · intro h
    simp only [calculate_spline_bases_gradient]
    rw [if_pos h]

theorem spline_bases_gradient_vs_derivative_witness :
    calculate_spline_bases_gradient (1/1000) [0, 1] [2, 3] 2 =
      rescale_bases_derivative (1/1000) [0, 1] [2, 3] 2 ∧
    calculate_spline_bases_gradient (1/1000) [0, 1/10000] [0, 1] 2 =
      (0, [1/2, 1/2]) := by
  constructor
  · refine (spline_bases_gradient_vs_derivative (1/1000) [0, 1] [2, 3] 2).1 ?_
    simp only [np_argmin, np_argmax, List.getD, List.getElem?_cons]
    norm_num
  · have h := (spline_bases_gradient_vs_derivative (1/1000)
      [0, 1/10000] [0, 1] 2).2 (by
        simp only [np_argmin, np_argmax, List.getD, List.getElem?_cons]
        norm_num)
    rw [h]
    simp only [np_argmin, np_argmax, List.getD, List.getElem?_cons]
    norm_num [List.replicate]

/-- Helper: `getD` of a mapped index range. -/
theorem getD_range_map (f : ℕ → ℤ) (len j : ℕ) (hj : j < len) :
    ((List.range len).map f).getD j 0 = f j := by
  rw [List.getD_eq_getElem?_getD, List.getElem?_map, List.getElem?_range hj]
  rfl

/-- C5: in the non-degenerate branch (`hi - lo ≥ MIN_SIM_RANGE`),
`_rescale_spline_bases` returns `delta_c = (hi - lo)/(N - 1)`, breakpoints
evenly spaced from `lo` to `hi`, interval `N` for the observation at which
the maximum is attained (`np.argmax`), interval `1` for the one at which
the minimum is attained (`np.argmin`), and
`ceil((y_k - c[0])/delta_c) + 1` clamped to at most `N` for every other
observation. -/
theorem rescale_nondegenerate_characterization (MINR : ℚ)
    (sim_all : List ℚ) (N : ℕ) (hM : 0 < MINR) (hN : 2 ≤ N)
    (hne : sim_all ≠ [])
    (hrange : MINR ≤ sim_all.getD (np_argmax sim_all) 0 -
      sim_all.getD (np_argmin sim_all) 0) :
    (rescale_spline_bases MINR sim_all N).1 =
      (sim_all.getD (np_argmax sim_all) 0 -
        sim_all.getD (np_argmin sim_all) 0) / ((N : ℚ) - 1) ∧
    (rescale_spline_bases MINR sim_all N).2.1.length = N ∧
    (∀ i < N, (rescale_spline_bases MINR sim_all N).2.1.getD i 0 =
      sim_all.getD (np_argmin sim_all) 0 +
        (i : ℚ) * (sim_all.getD (np_argmax sim_all) 0 -
          sim_all.getD (np_argmin sim_all) 0) / ((N : ℚ) - 1)) ∧
    (rescale_spline_bases MINR sim_all N).2.2.getD (np_argmax sim_all) 0 =
      (N : ℤ) ∧
    (rescale_spline_bases MINR sim_all N).2.2.getD (np_argmin sim_all) 0 = 1 ∧
    (∀ k < sim_all.length, k ≠ np_argmax sim_all → k ≠ np_argmin sim_all →
      (rescale_spline_bases MINR sim_all N).2.2.getD k 0 =
        min (N : ℤ) (⌈(sim_all.getD k 0 - sim_all.getD (np_argmin sim_all) 0) /
          ((rescale_spline_bases MINR sim_all N).1)⌉ + 1)) := by
  have hnotlt : ¬(sim_all.getD (np_argmax sim_all) 0 -
      sim_all.getD (np_argmin sim_all) 0 < MINR) := not_lt.mpr hrange
  have hNq : (1 : ℚ) ≤ (N : ℚ) - 1 := by
    have : (2 : ℚ) ≤ (N : ℚ) := by exact_mod_cast hN
    linarith
  have hidx : np_argmin sim_all ≠ np_argmax sim_all := by
    intro hEq
    rw [hEq] at hrange
    simp at hrange
    linarith
  rw [rescale_nondeg MINR sim_all N hnotlt]
  refine ⟨rfl, linspace_length _ _ _, ?_, ?_, ?_, ?_⟩
  · intro i hi
    exact linspace_getD _ _ _ _ hi
  · rw [getD_range_map _ _ _ (np_argmax_lt_length sim_all hne)]
    simp
  · rw [getD_range_map _ _ _ (np_argmin_lt_length sim_all hne)]
    rw [if_neg hidx, if_pos rfl]
    exact min_eq_right (by exact_mod_cast Nat.one_le_of_lt hN)
  · intro k hk hkmax hkmin
    rw [getD_range_map _ _ _ hk, if_neg hkmax, if_neg hkmin,
      linspace_getD_zero _ _ _ (by omega)]

theorem rescale_nondegenerate_characterization_witness :
    (rescale_spline_bases (1/1000) [0, 1] 2).1 = 1 ∧
      (rescale_spline_bases (1/1000) [0, 1] 2).2.2.getD 1 0 = 2 ∧
      (rescale_spline_bases (1/1000) [0, 1] 2).2.2.getD 0 0 = 1 := by
  have h := rescale_nondegenerate_characterization (1/1000) [0, 1] 2
    (by norm_num) (by norm_num) (by simp)
    (by
      simp only [np_argmin, np_argmax, List.getD, List.getElem?_cons]
      norm_num)
  obtain ⟨h1, _, _, h4, h5, _⟩ := h
  simp only [np_argmin, np_argmax, List.getD, List.getElem?_cons] at h1 h4 h5
  norm_num at h1 h4 h5
  exact ⟨h1, by rw [List.getD_eq_getElem?_getD]; exact h4,
    by rw [List.getD_eq_getElem?_getD]; exact h5⟩

/-- C1 (counterexample): with `MIN_SIM_RANGE = 1e-3`, `N = 2` and the
non-empty simulation vector `[-0.002]`, the degenerate branch anchors the
window at 0 and computes `n[0] = ceil((-0.002 - 0)/0.001) + 1 = -1`
(there is no lower clamp), violating `n[k] ∈ [1, N]`. -/
theorem basis_partition_counterexample :
    ¬ ∀ v ∈ (rescale_spline_bases (1/1000) [-(1/500)] 2).2.2,
      1 ≤ v ∧ v ≤ 2 := by
  intro h
  have hlist : (rescale_spline_bases (1/1000) [-(1/500)] 2).2.2 = [-1] := by
    simp only [rescale_spline_bases, np_argmin, np_argmax, linspace,
      List.range_succ, List.range_zero, List.map, List.getD,
      List.getElem?_cons]
    norm_num
    rw [show ⌈(-2:ℚ)⌉ = -2 from by norm_num [Int.ceil_eq_iff]]
    norm_num
  have := h (-1) (by rw [hlist]; simp)
  omega

/-- C1 (amended): for `N ≥ 2`, non-empty `sim_all` and positive threshold,
every returned interval value satisfies `n[k] ≤ N` unconditionally (the
clamp `if n[i] > N` applies on every path); the lower bound `1 ≤ n[k]`
holds provided all simulation values are nonnegative (it can fail for
negative simulations in the degenerate zero-anchored branch, which has no
lower clamp); and when the range is non-degenerate the breakpoints are
strictly increasing. -/
theorem basis_partition (MINR : ℚ) (sim_all : List ℚ) (N : ℕ)
    (hM : 0 < MINR) (hN : 2 ≤ N) (_hne : sim_all ≠ []) :
    (∀ v ∈ (rescale_spline_bases MINR sim_all N).2.2, v ≤ (N : ℤ)) ∧
    ((∀ y ∈ sim_all, 0 ≤ y) →
      ∀ v ∈ (rescale_spline_bases MINR sim_all N).2.2, 1 ≤ v) ∧
    (MINR ≤ sim_all.getD (np_argmax sim_all) 0 -
        sim_all.getD (np_argmin sim_all) 0 →
      ∀ i, i + 1 < N →
        (rescale_spline_bases MINR sim_all N).2.1.getD i 0 <
          (rescale_spline_bases MINR sim_all N).2.1.getD (i + 1) 0) := by
  have hNq : (1 : ℚ) ≤ (N : ℚ) - 1 := by
    have : (2 : ℚ) ≤ (N : ℚ) := by exact_mod_cast hN
    linarith
  have hNpos : (0 : ℚ) < (N : ℚ) - 1 := lt_of_lt_of_le one_pos hNq
  have hN1 : (1 : ℤ) ≤ (N : ℤ) := by exact_mod_cast Nat.one_le_of_lt hN
  refine ⟨?_, ?_, ?_⟩
  · -- upper bound, unconditional: every entry is a `min (N : ℤ) _`
    intro v hv
    by_cases hdeg : sim_all.getD (np_argmax sim_all) 0 -
        sim_all.getD (np_argmin sim_all) 0 < MINR
    · by_cases hanch : (sim_all.getD (np_argmax sim_all) 0 +
          sim_all.getD (np_argmin sim_all) 0) / 2 < MINR / 2
      · rw [rescale_deg_anchored MINR sim_all N hdeg hanch] at hv
        obtain ⟨y, _, rfl⟩ := List.mem_map.mp hv
        exact min_le_left _ _
      · rw [rescale_deg_centered MINR sim_all N hdeg hanch] at hv
        obtain ⟨y, _, rfl⟩ := List.mem_map.mp hv
        exact min_le_left _ _
    · rw [rescale_nondeg MINR sim_all N hdeg] at hv
      obtain ⟨i, _, rfl⟩ := List.mem_map.mp hv
      split_ifs <;> exact min_le_left _ _
  · -- lower bound, under nonnegative simulations
    intro hnn v hv
    by_cases hdeg : sim_all.getD (np_argmax sim_all) 0 -
        sim_all.getD (np_argmin sim_all) 0 < MINR
    · -- degenerate branch
      have hdelta : (0 : ℚ) < MINR / ((N : ℚ) - 1) := div_pos hM hNpos
      by_cases hanch : (sim_all.getD (np_argmax sim_all) 0 +
          sim_all.getD (np_argmin sim_all) 0) / 2 < MINR / 2
      · rw [rescale_deg_anchored MINR sim_all N hdeg hanch] at hv
        obtain ⟨y, hy, rfl⟩ := List.mem_map.mp hv
        refine le_min hN1 ?_
        have hy0 : (0 : ℚ) ≤ y := hnn y hy
        have hc0 : (linspace 0 MINR N).getD 0 0 = 0 :=
          linspace_getD_zero _ _ _ (by omega)
        rw [hc0]
        have : (0 : ℤ) ≤ ⌈(y - 0) / (MINR / ((N : ℚ) - 1))⌉ :=
          Int.ceil_nonneg (div_nonneg (by linarith) (le_of_lt hdelta))
        omega
      · rw [rescale_deg_centered MINR sim_all N hdeg hanch] at hv
        obtain ⟨y, hy, rfl⟩ := List.mem_map.mp hv
        refine le_min hN1 ?_
        have hc0 : (linspace ((sim_all.getD (np_argmax sim_all) 0 +
            sim_all.getD (np_argmin sim_all) 0) / 2 - MINR / 2)
            ((sim_all.getD (np_argmax sim_all) 0 +
              sim_all.getD (np_argmin sim_all) 0) / 2 + MINR / 2) N).getD 0 0 =
            (sim_all.getD (np_argmax sim_all) 0 +
              sim_all.getD (np_argmin sim_all) 0) / 2 - MINR / 2 :=
          linspace_getD_zero _ _ _ (by omega)
        rw [hc0]
        have hlo : sim_all.getD (np_argmin sim_all) 0 ≤ y :=
          np_argmin_le sim_all y hy
        have : (0 : ℤ) ≤ ⌈(y - ((sim_all.getD (np_argmax sim_all) 0 +
            sim_all.getD (np_argmin sim_all) 0) / 2 - MINR / 2)) /
            (MINR / ((N : ℚ) - 1))⌉ :=
          Int.ceil_nonneg (div_nonneg (by linarith) (le_of_lt hdelta))
        omega
    · -- non-degenerate branch
      have hrange := not_lt.mp hdeg
      have hdelta : (0 : ℚ) < (sim_all.getD (np_argmax sim_all) 0 -
          sim_all.getD (np_argmin sim_all) 0) / ((N : ℚ) - 1) :=
        div_pos (lt_of_lt_of_le hM hrange) hNpos
      rw [rescale_nondeg MINR sim_all N hdeg] at hv
      obtain ⟨i, hi, rfl⟩ := List.mem_map.mp hv
      have hilen : i < sim_all.length := List.mem_range.mp hi
      split_ifs with hmax hmin
      · simp [min_self]
        omega
      · exact le_min hN1 le_rfl
      · refine le_min hN1 ?_
        have hc0 : (linspace (sim_all.getD (np_argmin sim_all) 0)
            (sim_all.getD (np_argmax sim_all) 0) N).getD 0 0 =
            sim_all.getD (np_argmin sim_all) 0 :=
          linspace_getD_zero _ _ _ (by omega)
        rw [hc0]
        have hmem : sim_all.getD i 0 ∈ sim_all := by
          rw [List.getD_eq_getElem sim_all 0 hilen]
          exact List.getElem_mem hilen
        have hlo : sim_all.getD (np_argmin sim_all) 0 ≤ sim_all.getD i 0 :=
          np_argmin_le sim_all _ hmem
        have : (0 : ℤ) ≤ ⌈(sim_all.getD i 0 -
            sim_all.getD (np_argmin sim_all) 0) /
            ((sim_all.getD (np_argmax sim_all) 0 -
              sim_all.getD (np_argmin sim_all) 0) / ((N : ℚ) - 1))⌉ :=
          Int.ceil_nonneg (div_nonneg (by linarith) (le_of_lt hdelta))
        omega
  · intro hrange i hi
    have hnotlt : ¬(sim_all.getD (np_argmax sim_all) 0 -
        sim_all.getD (np_argmin sim_all) 0 < MINR) := not_lt.mpr hrange
    rw [rescale_nondeg MINR sim_all N hnotlt]
    rw [linspace_getD _ _ _ i (by omega), linspace_getD _ _ _ (i + 1) hi]
    have hpos : (0 : ℚ) < (sim_all.getD (np_argmax sim_all) 0 -
        sim_all.getD (np_argmin sim_all) 0) / ((N : ℚ) - 1) :=
      div_pos (lt_of_lt_of_le hM hrange) hNpos
    have hcast : ((i : ℚ)) < ((i : ℚ) + 1) := by linarith
    calc sim_all.getD (np_argmin sim_all) 0 +
          (i : ℚ) * (sim_all.getD (np_argmax sim_all) 0 -
            sim_all.getD (np_argmin sim_all) 0) / ((N : ℚ) - 1)
        = sim_all.getD (np_argmin sim_all) 0 +
          (i : ℚ) * ((sim_all.getD (np_argmax sim_all) 0 -
            sim_all.getD (np_argmin sim_all) 0) / ((N : ℚ) - 1)) := by ring
      _ < sim_all.getD (np_argmin sim_all) 0 +
          ((i : ℚ) + 1) * ((sim_all.getD (np_argmax sim_all) 0 -
            sim_all.getD (np_argmin sim_all) 0) / ((N : ℚ) - 1)) := by
            have := mul_lt_mul_of_pos_right hcast hpos
            linarith
      _ = sim_all.getD (np_argmin sim_all) 0 +
          ((i : ℚ) + 1) * (sim_all.getD (np_argmax sim_all) 0 -
            sim_all.getD (np_argmin sim_all) 0) / ((N : ℚ) - 1) := by ring
      _ = sim_all.getD (np_argmin sim_all) 0 +
          ((i + 1 : ℕ) : ℚ) * (sim_all.getD (np_argmax sim_all) 0 -
            sim_all.getD (np_argmin sim_all) 0) / ((N : ℚ) - 1) := by
            push_cast
            ring

theorem basis_partition_witness :
    (rescale_spline_bases (1/1000) [-(1/500)] 2).2.2.getD 0 0 ≤ 2 ∧
      1 ≤ (rescale_spline_bases (1/1000) [0, 1] 2).2.2.getD 0 0 ∧
      (rescale_spline_bases (1/1000) [0, 1] 2).2.2.getD 0 0 ≤ 2 := by
  have hneg : (rescale_spline_bases (1/1000) [-(1/500)] 2).2.2 = [-1] := by
    simp only [rescale_spline_bases, np_argmin, np_argmax, linspace,
      List.range_succ, List.range_zero, List.map, List.getD,
      List.getElem?_cons]
    norm_num
    rw [show ⌈(-2:ℚ)⌉ = -2 from by norm_num [Int.ceil_eq_iff]]
    norm_num
  have hlist : (rescale_spline_bases (1/1000) [0, 1] 2).2.2 = [1, 2] := by
    simp only [rescale_spline_bases, np_argmin, np_argmax, linspace,
      List.range_succ, List.range_zero, List.map, List.getD,
      List.getElem?_cons]
    norm_num
  have hb := basis_partition (1/1000) [0, 1] 2 (by norm_num) (by norm_num)
    (by simp)
  have hb2 := basis_partition (1/1000) [-(1/500)] 2 (by norm_num) (by norm_num)
    (by simp)
  refine ⟨hb2.1 _ (by rw [hneg]; simp [List.getD]), ?_, ?_⟩
  · exact hb.2.1
      (by
        intro y hy
        simp at hy
        rcases hy with h | h <;> simp [h])
      _ (by rw [hlist]; simp [List.getD])
  · exact hb.1 _ (by rw [hlist]; simp [List.getD])
